import Mathlib

/-!
Verification of the semantic query cache of `cyx` (src/cache/{normalizer,embedder,storage}.rs).

Modelling conventions, used throughout:
* Rust strings are modelled as `List Char` (`Str` below); the UTF-8 byte view a
  Rust `&str` exposes is recovered by `bytesOfChars`.
* Machine integers are modelled as `Nat`/`Int`; 64-bit wraparound is written as
  an explicit `% 2 ^ 64`.
* `f32` values are modelled as exact rationals (`ℚ`).  The one genuinely
  floating-point operation the source uses, `f32::sqrt`, is modelled by the
  nonnegative rational-valued `fsqrt`; none of the theorems below depend on the
  numeric values `fsqrt` returns, only on `fsqrt 0 = 0` and nonnegativity,
  which any model of `sqrt` shares.
* A Rust panic is modelled by `Option`: `none` is a panic, which aborts the
  operation before it touches the store.
* The SQLite database owned by `CacheStorage` is modelled by `CacheState`:
  the `queries` table as a list of rows in rowid order, the singleton
  `cache_stats` row, the `AUTOINCREMENT` counter, and the connection-level
  `last_insert_rowid` value.  `rusqlite` column decoding is modelled by
  `SqlValue` together with the `as...` decoders, which fail exactly when the
  SQLite value's type does not match the requested Rust type, as `FromSql`
  does.  `bincode` (de)serialization of `Vec<f32>` is modelled by `EmbBlob`:
  a blob either round-trips to a vector (`good v`) or fails to deserialize
  (`bad`).
-/

set_option maxRecDepth 10000

deriving instance DecidableEq for Except

namespace Cyx

/-! ### DefaultHasher: SipHash-1-3 with keys (0, 0)

`std::collections::hash_map::DefaultHasher::new()` is SipHash-1-3 with both
keys zero, and `impl Hash for str` feeds the hasher the string's UTF-8 bytes
followed by a single `0xff` delimiter byte.  Both `QueryNormalizer::compute_hash`
and `Embedder::hash_string` hash a `&str` through exactly this path. -/

/-- Str models a Rust `String`/`&str` as its character sequence. -/
abbrev Str := List Char

/-- Reduce to a 64-bit value (u64 wraparound). -/
def w64 (n : Nat) : Nat := n % 2 ^ 64

/-- u64 xor; the reduction is a no-op on 64-bit operands but keeps the
64-bit bound syntactically evident. -/
def xor64 (a b : Nat) : Nat := (a ^^^ b) % 2 ^ 64

/-- u64 wrapping addition. -/
def add64 (a b : Nat) : Nat := (a + b) % 2 ^ 64

/-- u64 rotate left by `b` bits (0 < b < 64). -/
def rotl64 (x b : Nat) : Nat := (x * 2 ^ b) % 2 ^ 64 ||| x % 2 ^ 64 / 2 ^ (64 - b)

/-- The four 64-bit words of SipHash state. -/
structure SipState where
  v0 : Nat
  v1 : Nat
  v2 : Nat
  v3 : Nat
deriving DecidableEq

/-- One SipHash round (the `compress!` macro of Rust's `core::hash::sip`). -/
def sipRound (s : SipState) : SipState :=
  let v0 := add64 s.v0 s.v1
  let v1 := rotl64 s.v1 13
  let v1 := xor64 v1 v0
  let v0 := rotl64 v0 32
  let v2 := add64 s.v2 s.v3
  let v3 := rotl64 s.v3 16
  let v3 := xor64 v3 v2
  let v0 := add64 v0 v3
  let v3 := rotl64 v3 21
  let v3 := xor64 v3 v0
  let v2 := add64 v2 v1
  let v1 := rotl64 v1 17
  let v1 := xor64 v1 v2
  let v2 := rotl64 v2 32
  ⟨v0, v1, v2, v3⟩

/-- Little-endian word of a byte list (at most 8 bytes). -/
def leWord (bs : List Nat) : Nat := bs.foldr (fun b acc => b + 256 * acc) 0

/-- SipHash-1-3 compression loop followed by finalization.  Whole 8-byte
blocks get one round each; the final block is the at-most-7-byte tail with
the total message length (mod 256) in its top byte, then `v2 ^= 0xff` and
three finalization rounds. -/
def sipGo : SipState → List Nat → Nat → Nat
  | s, b0 :: b1 :: b2 :: b3 :: b4 :: b5 :: b6 :: b7 :: rest, len =>
    let m := leWord [b0, b1, b2, b3, b4, b5, b6, b7]
    let s := { s with v3 := xor64 s.v3 m }
    let s := sipRound s
    let s := { s with v0 := xor64 s.v0 m }
    sipGo s rest len
  | s, tail, len =>
    let b := len % 256 * 2 ^ 56 ||| leWord tail
    let s := { s with v3 := xor64 s.v3 b }
    let s := sipRound s
    let s := { s with v0 := xor64 s.v0 b }
    let s := { s with v2 := xor64 s.v2 0xff }
    let s := sipRound (sipRound (sipRound s))
    xor64 (xor64 (xor64 s.v0 s.v1) s.v2) s.v3

/-- SipHash-1-3 of a byte message under keys `k0`, `k1`. -/
def sipHash13 (k0 k1 : Nat) (msg : List Nat) : Nat :=
  sipGo
    ⟨xor64 0x736f6d6570736575 k0, xor64 0x646f72616e646f6d k1,
     xor64 0x6c7967656e657261 k0, xor64 0x7465646279746573 k1⟩
    msg msg.length

/-- UTF-8 encoding of one scalar value, as `str::as_bytes` exposes it. -/
def utf8EncodeChar (c : Char) : List Nat :=
  let n := c.toNat
  if n < 0x80 then [n]
  else if n < 0x800 then [0xC0 ||| n / 64, 0x80 ||| n % 64]
  else if n < 0x10000 then [0xE0 ||| n / 4096, 0x80 ||| n / 64 % 64, 0x80 ||| n % 64]
  else [0xF0 ||| n / 262144, 0x80 ||| n / 4096 % 64, 0x80 ||| n / 64 % 64, 0x80 ||| n % 64]

/-- UTF-8 bytes of a string. -/
def bytesOfChars (s : Str) : List Nat := (s.map utf8EncodeChar).flatten

/-- The `DefaultHasher` digest of a Rust `&str`: SipHash-1-3, keys (0,0), over the
UTF-8 bytes followed by the `0xff` delimiter that `Hash for str` appends. -/
def defaultHashStr (s : Str) : Nat := sipHash13 0 0 (bytesOfChars s ++ [0xff])

/-! ### Lowercase hex formatting, as Rust's `format!("{:x}", u64)`

`{:x}` prints the minimal number of hex digits (so `0` prints as `"0"`), with
no leading-zero padding. -/

/-- One lowercase hex digit. -/
def hexDigit (n : Nat) : Char := if n < 10 then Char.ofNat (48 + n) else Char.ofNat (87 + n)

/-- Worker for hex formatting.  The fuel argument only forces structural
termination; `hexCore` supplies enough fuel for every input. -/
def hexCoreAux (fuel n : Nat) : List Char :=
  match fuel with
  | 0 => []
  | fuel + 1 =>
    if n < 16 then [hexDigit n] else hexCoreAux fuel (n / 16) ++ [hexDigit (n % 16)]

/-- Minimal lowercase hex representation of a natural number. -/
def hexCore (n : Nat) : List Char := hexCoreAux (n + 1) n

/-- The sixteen digits `{:x}` can emit. -/
def hexAlphabet : List Char := "0123456789abcdef".toList

/-! ### Character classes and whitespace utilities of `str`

`char::is_whitespace` is the Unicode `White_Space` property, reproduced below
in full.  `char::to_lowercase` and `char::is_alphanumeric` are Unicode-table
driven; they are modelled on their ASCII fragments (`A`–`Z` map down, other
characters are fixed; `A`–`Z`/`a`–`z`/`0`–`9` are alphanumeric).  Every
theorem below uses only properties these models share with the full tables:
lowercasing is applied per character, fixes whitespace, and never turns a
non-whitespace character into whitespace. -/

/-- Rust `char::is_whitespace`: the Unicode `White_Space` code points. -/
def rustIsWhitespace (c : Char) : Bool :=
  let n := c.toNat
  (9 ≤ n && n ≤ 13) || n == 0x20 || n == 0x85 || n == 0xA0 || n == 0x1680 ||
    (0x2000 ≤ n && n ≤ 0x200A) || n == 0x2028 || n == 0x2029 || n == 0x202F ||
    n == 0x205F || n == 0x3000

/-- Model of Rust `char::to_lowercase` (ASCII fragment, see section comment). -/
def rustToLowerChar (c : Char) : Char :=
  if 65 ≤ c.toNat ∧ c.toNat ≤ 90 then Char.ofNat (c.toNat + 32) else c

/-- Model of Rust `str::to_lowercase` as the per-character mapping. -/
def rustToLower (s : Str) : Str := s.map rustToLowerChar

/-- Model of Rust `char::is_alphanumeric` (ASCII fragment, see section comment). -/
def rustIsAlphanumeric (c : Char) : Bool :=
  (97 ≤ c.toNat && c.toNat ≤ 122) || (65 ≤ c.toNat && c.toNat ≤ 90) ||
    (48 ≤ c.toNat && c.toNat ≤ 57)

/-- Rust `str::trim`: strip leading and trailing whitespace. -/
def trimChars (s : Str) : Str :=
  (((s.dropWhile rustIsWhitespace).reverse.dropWhile rustIsWhitespace)).reverse

/-- Accumulator worker for `splitWS`; `acc` holds the current word reversed. -/
def splitWSAux : Str → Str → List Str
  | [], acc => if acc.isEmpty then [] else [acc.reverse]
  | c :: cs, acc =>
    if rustIsWhitespace c then
      if acc.isEmpty then splitWSAux cs [] else acc.reverse :: splitWSAux cs []
    else splitWSAux cs (c :: acc)

/-- Rust `str::split_whitespace`: maximal non-whitespace runs, in order. -/
def splitWS (s : Str) : List Str := splitWSAux s []

/-- Rust `Vec<&str>::join(" ")`. -/
def joinSpace : List Str → Str
  | [] => []
  | [w] => w
  | w :: rest => w ++ ' ' :: joinSpace rest

/-! ### QueryNormalizer (src/cache/normalizer.rs) -/

/-- Model of `NormalizationConfig` (normalizer.rs lines 6-13). -/
structure NormalizationConfig where
  lowercase : Bool
  remove_punctuation : Bool
  expand_abbreviations : Bool
  trim_whitespace : Bool
  remove_stopwords : Bool
deriving DecidableEq

/-- Model of `NormalizationConfig::default` (normalizer.rs lines 15-25). -/
def NormalizationConfig.default : NormalizationConfig :=
  { lowercase := true
    remove_punctuation := false
    expand_abbreviations := true
    trim_whitespace := true
    remove_stopwords := true }

/-- Model of `QueryNormalizer`: the config plus the two lexicons loaded at
construction.  The abbreviation `HashMap<String, String>` is modelled as an
association list queried by `lookupAssoc`; the stopword `HashSet<String>` as
a list queried by membership.  (The lexicon data files are not part of the
sources; all theorems below hold for every lexicon.) -/
structure QueryNormalizer where
  config : NormalizationConfig
  abbreviations : List (Str × Str)
  stopwords : List Str

/-- First-match association-list lookup (the `HashMap::get` of the model). -/
def lookupAssoc : List (Str × Str) → Str → Option Str
  | [], _ => none
  | (k, v) :: rest, w => if k = w then some v else lookupAssoc rest w

/-- Model of `word.trim_end_matches(|c: char| !c.is_alphanumeric())` (normalizer.rs
line 151): strip trailing non-alphanumeric characters. -/
def stripTrailingNonAlnum (w : Str) : Str :=
  (w.reverse.dropWhile (fun c => !rustIsAlphanumeric c)).reverse

/-- One token of `expand_abbreviations`: replace the token by its expansion
when the trailing-punctuation-stripped form is in the lexicon, otherwise keep
the token verbatim. -/
def expandToken (abbrevs : List (Str × Str)) (w : Str) : Str :=
  match lookupAssoc abbrevs (stripTrailingNonAlnum w) with
  | some expansion => expansion
  | none => w

/-- Model of `QueryNormalizer::expand_abbreviations` (normalizer.rs lines 145-161). -/
def expandAbbreviations (abbrevs : List (Str × Str)) (text : Str) : Str :=
  joinSpace ((splitWS text).map (expandToken abbrevs))

/-- Worker for `clean_punctuation`: the character loop with its
`last_was_space` flag. -/
def cleanPunctAux : Str → Bool → Str
  | [], _ => []
  | c :: cs, lastWasSpace =>
    if rustIsAlphanumeric c || c == '-' || c == '_' || c == '/' then
      c :: cleanPunctAux cs false
    else if rustIsWhitespace c then
      if lastWasSpace then cleanPunctAux cs true else ' ' :: cleanPunctAux cs true
    else
      if lastWasSpace then cleanPunctAux cs true else ' ' :: cleanPunctAux cs true

/-- Model of `QueryNormalizer::clean_punctuation` (normalizer.rs lines 163-186). -/
def cleanPunctuation (text : Str) : Str := trimChars (cleanPunctAux text false)

/-- Model of `QueryNormalizer::remove_stopwords` (normalizer.rs lines 188-193). -/
def removeStopwords (stop : List Str) (text : Str) : Str :=
  joinSpace ((splitWS text).filter (fun w => decide (w ∉ stop)))

/-- Model of `QueryNormalizer::normalize` (normalizer.rs lines 111-143): the six-step
pipeline, each step gated by its config flag except the final whitespace
collapse.  The source returns `Ok(..)` unconditionally, so the `Result`
wrapper is dropped. -/
def QueryNormalizer.normalize (nz : QueryNormalizer) (query : Str) : Str :=
  let n := query
  let n := if nz.config.trim_whitespace then trimChars n else n
  let n := if nz.config.lowercase then rustToLower n else n
  let n := if nz.config.expand_abbreviations then expandAbbreviations nz.abbreviations n else n
  let n := if nz.config.remove_punctuation then cleanPunctuation n else n
  let n := if nz.config.remove_stopwords then removeStopwords nz.stopwords n else n
  joinSpace (splitWS n)

/-- Model of `QueryNormalizer::compute_hash` (normalizer.rs lines 195-202):
`format!("{:x}", DefaultHasher-of-the-string)`. -/
def computeHash (normalizedQuery : Str) : Str := hexCore (defaultHashStr normalizedQuery)

/-! ### Embedder (src/cache/embedder.rs) -/

/-- Model of `f32::sqrt` on the nonnegative rationals (see header comment):
`fsqrt q * fsqrt q` approximates `q`; the only facts used are `fsqrt 0 = 0`
and nonnegativity. -/
def fsqrt (q : ℚ) : ℚ :=
  if q ≤ 0 then 0 else (Nat.sqrt (q.num.toNat * q.den) : ℚ) / (q.den : ℚ)

/-- Model of `Embedder` (embedder.rs lines 32-34). -/
structure Embedder where
  dimensions : Nat
deriving DecidableEq

/-- Model of `Embedder::new_simple` (embedder.rs line 38).  `CacheStorage::new` calls
this constructor under the name `Embedder::new`. -/
def Embedder.new_simple (dimensions : Nat) : Embedder := ⟨dimensions⟩

/-- Model of `Embedder::get_default_dimensions` (embedder.rs lines 133-135). -/
def Embedder.get_default_dimensions : Nat := 256

/-- Model of `Embedder::hash_string` (embedder.rs lines 85-92): `DefaultHasher`
digest of the `&str`, as `usize` (64-bit). -/
def hash_string (s : Str) : Nat := defaultHashStr s

/-- The update `embedding[i] += x` on the model vector.  Callers always pass an
in-bounds index. -/
def listAddAt (v : List ℚ) (i : Nat) (x : ℚ) : List ℚ := v.set i (v.getD i 0 + x)

/-- The slot index `hash % dimensions`; Rust `usize % 0` panics, hence
`none` when the dimension is zero. -/
def modIdx (h dims : Nat) : Option Nat := if dims = 0 then none else some (h % dims)

/-- UTF-8 character-boundary offsets of a word, in bytes (0, each prefix
sum, and the total length). -/
def utf8Boundaries (w : Str) : List Nat :=
  (List.range (w.length + 1)).map (fun k => (bytesOfChars (w.take k)).length)

/-- Whether byte offset `i` is a character boundary of `w`; `&word[i..j]`
panics unless both ends are boundaries. -/
def isCharBoundary (w : Str) (i : Nat) : Bool := (utf8Boundaries w).contains i

/-- The trigram loop of `Embedder::embed` (embedder.rs lines 57-65) for one
word: for each byte offset `i` in `0 .. word.len() - 2`, slice the three
bytes `word[i..i + 3]` — a panic (`none`) when either end of the slice is
not a character boundary — hash the slice and add `0.5` to its slot. -/
def trigramsOfWord (dims : Nat) (emb : List ℚ) (w : Str) : Option (List ℚ) :=
  let bs := bytesOfChars w
  if bs.length ≥ 3 then
    (List.range (bs.length - 2)).foldlM
      (fun acc i =>
        if isCharBoundary w i && isCharBoundary w (i + 3) then do
          let idx ← modIdx (sipHash13 0 0 ((bs.drop i).take 3 ++ [0xff])) dims
          pure (listAddAt acc idx (1 / 2))
        else none)
      emb
  else some emb

/-- Model of `Embedder::embed` (embedder.rs lines 43-83).  `none` is a panic: either a
trigram byte slice that does not fall on character boundaries, or an index
computation `% 0` when the dimension is zero. -/
def Embedder.embed (e : Embedder) (text : Str) : Option (List ℚ) := do
  let words := splitWS (rustToLower text)
  let emb : List ℚ := List.replicate e.dimensions 0
  let emb ← words.enum.foldlM
    (fun acc p => do
      let idx ← modIdx (hash_string p.2) e.dimensions
      pure (listAddAt acc idx (1 / ((p.1 : ℚ) + 1))))
    emb
  let emb ← words.foldlM (fun acc w => trigramsOfWord e.dimensions acc w) emb
  let avgWordLen : ℚ :=
    if words ≠ [] then
      ((words.map (fun w => (bytesOfChars w).length)).sum : ℚ) / (words.length : ℚ)
    else 0
  let emb :=
    if e.dimensions > 10 then
      (emb.set (e.dimensions - 1) (avgWordLen / 10)).set (e.dimensions - 2)
        ((words.length : ℚ) / 20)
    else emb
  let norm := fsqrt ((emb.map (fun x => x * x)).sum)
  pure (if norm > 0 then emb.map (fun x => x / norm) else emb)

/-- Model of `cosine_similarity` (embedder.rs lines 189-203). -/
def cosine_similarity (a b : List ℚ) : ℚ :=
  if a.length ≠ b.length then 0
  else
    let dotProduct := ((a.zip b).map (fun p => p.1 * p.2)).sum
    let normA := fsqrt ((a.map (fun x => x * x)).sum)
    let normB := fsqrt ((b.map (fun x => x * x)).sum)
    if normA = 0 ∨ normB = 0 then 0 else dotProduct / (normA * normB)

/-! ### CacheStorage (src/cache/storage.rs)

The SQLite database behind one `CacheStorage` handle.  Rows are kept in
rowid order; `query_row` takes the first matching row in that order.
Timestamps are the `Utc::now().timestamp()` integer seconds the source
stores; `DateTime::from_timestamp(ts, 0)` succeeds on every timestamp a
model state can hold and is the identity here. -/

/-- A stored `embedding` BLOB, through the eyes of
`bincode::deserialize::<Vec<f32>>`: either it round-trips (`good v`, the
shape `bincode::serialize` produces) or deserialization fails (`bad`). -/
inductive EmbBlob where
  | good (v : List ℚ)
  | bad
deriving DecidableEq

/-- Model of `bincode::deserialize::<Vec<f32>>` on a stored blob. -/
def bincodeDeserializeVecF32 : EmbBlob → Option (List ℚ)
  | .good v => some v
  | .bad => none

/-- One row of the `queries` table (schema at storage.rs lines 64-79). -/
structure CachedRow where
  id : Int
  query_original : Str
  query_normalized : Str
  query_hash : Str
  embedding : Option EmbBlob
  response : Str
  provider : Str
  model : Str
  created_at : Int
  last_accessed : Int
  access_count : Int
deriving DecidableEq

/-- Model of `CachedQuery` (storage.rs lines 9-21), the record returned to callers. -/
structure CachedQuery where
  id : Int
  query_original : Str
  query_normalized : Str
  query_hash : Str
  response : Str
  provider : Str
  model : Str
  created_at : Int
  last_accessed : Int
  access_count : Int
deriving DecidableEq

/-- Model of `CacheStats` (storage.rs lines 23-31). -/
structure CacheStats where
  total_entries : Int
  total_size_bytes : Int
  hit_count : Int
  miss_count : Int
  oldest_entry : Option Int
  newest_entry : Option Int
deriving DecidableEq

/-- The database state owned by one `CacheStorage`: the `queries` table in
rowid order, its `AUTOINCREMENT` counter, the connection's
`last_insert_rowid`, and the singleton `cache_stats` row. -/
structure CacheState where
  rows : List CachedRow
  nextId : Int
  lastInsertRowid : Int
  hit_count : Int
  miss_count : Int
deriving DecidableEq

/-- A fresh store: empty table, first rowid 1, `last_insert_rowid` 0,
zeroed stats row (`initialize_schema`, storage.rs lines 63-115). -/
def initState : CacheState :=
  { rows := [], nextId := 1, lastInsertRowid := 0, hit_count := 0, miss_count := 0 }

/-- The `CacheStorage.embedder` field: `CacheStorage::new` (storage.rs line
51) always constructs `Some(Embedder::new(Embedder::get_default_dimensions()))`. -/
def storageEmbedder : Option Embedder :=
  some (Embedder.new_simple Embedder.get_default_dimensions)

/-- An SQLite value, as `rusqlite` hands it to a row mapper. -/
inductive SqlValue where
  | int (i : Int)
  | text (s : Str)
  | blob (b : EmbBlob)
  | null
deriving DecidableEq

/-- The SQLite-level errors the modelled operations can surface:
`typeMismatch` is a row mapper failing because a column's SQLite type does
not match the requested Rust type (`FromSqlError::InvalidType` /
`Error::InvalidColumnType`); `statementMismatch` is SQLite rejecting a
statement at prepare time because its INSERT column list and VALUES row have
different lengths ("N values for M columns"). -/
inductive SqlError where
  | typeMismatch
  | statementMismatch
deriving DecidableEq

/-- Model of `row.get::<String>`: only a TEXT value decodes. -/
def SqlValue.asText : SqlValue → Except SqlError Str
  | .text s => .ok s
  | _ => .error .typeMismatch

/-- Model of `row.get::<i64>`: only an INTEGER value decodes. -/
def SqlValue.asInt : SqlValue → Except SqlError Int
  | .int i => .ok i
  | _ => .error .typeMismatch

/-- Model of `row.get::<i32>`: an INTEGER value in `i32` range. -/
def SqlValue.asI32 : SqlValue → Except SqlError Int
  | .int i => if -2147483648 ≤ i ∧ i < 2147483648 then .ok i else .error .typeMismatch
  | _ => .error .typeMismatch

/-- Model of `row.get::<Vec<u8>>`: only a BLOB value decodes. -/
def SqlValue.asBlob : SqlValue → Except SqlError EmbBlob
  | .blob b => .ok b
  | _ => .error .typeMismatch

/-- Column access inside a mapper (all reads below are in range). -/
def colGet (vs : List SqlValue) (i : Nat) : SqlValue := vs.getD i .null

/-- The column list of `get_by_hash`'s SELECT (storage.rs lines 164-168), in
order: 0 `id`, 1 `query_original`, 2 `query_normalized`, 3 `query_hash`,
4 `response`, 5 `embedding`, 6 `provider`, 7 `model`, 8 `created_at`,
9 `last_accessed`, 10 `access_count`. -/
def getByHashSelectRow (r : CachedRow) : List SqlValue :=
  [.int r.id, .text r.query_original, .text r.query_normalized, .text r.query_hash,
   .text r.response,
   (match r.embedding with | some b => .blob b | none => .null),
   .text r.provider, .text r.model, .int r.created_at, .int r.last_accessed,
   .int r.access_count]

/-- The row mapper of `get_by_hash` (storage.rs lines 170-183), reading the
column indices the source reads: note it takes column 5 — the `embedding`
BLOB of its own SELECT — as `provider`, column 6 as `model`, column 7 as
`created_at`, column 8 as `last_accessed` and column 9 as `access_count`. -/
def getByHashMapRow (vs : List SqlValue) : Except SqlError CachedQuery := do
  let id ← (colGet vs 0).asInt
  let qOrig ← (colGet vs 1).asText
  let qNorm ← (colGet vs 2).asText
  let qHash ← (colGet vs 3).asText
  let resp ← (colGet vs 4).asText
  let prov ← (colGet vs 5).asText
  let mdl ← (colGet vs 6).asText
  let createdAt ← (colGet vs 7).asInt
  let lastAccessed ← (colGet vs 8).asInt
  let accessCount ← (colGet vs 9).asI32
  pure { id := id, query_original := qOrig, query_normalized := qNorm,
         query_hash := qHash, response := resp, provider := prov, model := mdl,
         created_at := createdAt, last_accessed := lastAccessed,
         access_count := accessCount }

/-- The column list of `search_similar`'s SELECT (storage.rs lines 211-215):
0 `id`, 1 `query_original`, 2 `query_normalized`, 3 `query_hash`,
4 `embedding`, 5 `response`, 6 `provider`, 7 `model`, 8 `created_at`,
9 `last_accessed`, 10 `access_count`. -/
def searchSelectRow (r : CachedRow) : List SqlValue :=
  [.int r.id, .text r.query_original, .text r.query_normalized, .text r.query_hash,
   (match r.embedding with | some b => .blob b | none => .null),
   .text r.response, .text r.provider, .text r.model, .int r.created_at,
   .int r.last_accessed, .int r.access_count]

/-- The row mapper of `search_similar` (storage.rs lines 217-234); its
indices agree with its SELECT. -/
def searchMapRow (vs : List SqlValue) : Except SqlError (CachedQuery × EmbBlob) := do
  let id ← (colGet vs 0).asInt
  let qOrig ← (colGet vs 1).asText
  let qNorm ← (colGet vs 2).asText
  let qHash ← (colGet vs 3).asText
  let resp ← (colGet vs 5).asText
  let prov ← (colGet vs 6).asText
  let mdl ← (colGet vs 7).asText
  let createdAt ← (colGet vs 8).asInt
  let lastAccessed ← (colGet vs 9).asInt
  let accessCount ← (colGet vs 10).asI32
  let blobBytes ← (colGet vs 4).asBlob
  pure ({ id := id, query_original := qOrig, query_normalized := qNorm,
          query_hash := qHash, response := resp, provider := prov, model := mdl,
          created_at := createdAt, last_accessed := lastAccessed,
          access_count := accessCount }, blobBytes)

/-- The column list of `store`'s INSERT statement (storage.rs lines
136-139): ten columns, `access_count` included. -/
def storeInsertColumns : List Str :=
  ["query_original".toList, "query_normalized".toList, "query_hash".toList,
   "embedding".toList, "response".toList, "provider".toList, "model".toList,
   "created_at".toList, "last_accessed".toList, "access_count".toList]

/-- The parameters `params!` binds to the statement (storage.rs lines
147-157), matching its nine placeholders `?1 .. ?9`: no value is supplied
for the tenth column. -/
def storeInsertParams (now : Int)
    (query_original query_normalized query_hash : Str)
    (embeddingBlob : Option EmbBlob) (response provider model : Str) :
    List SqlValue :=
  [.text query_original, .text query_normalized, .text query_hash,
   (match embeddingBlob with | some b => .blob b | none => .null),
   .text response, .text provider, .text model, .int now, .int now]

/-- The upsert statement of `store` (storage.rs lines 135-158) followed by
the `conn.last_insert_rowid()` read (line 160).  SQLite accepts an INSERT
only when its column list and its VALUES row have the same length; this
statement names ten columns but carries nine placeholders, so `prepare`
rejects it ("9 values for 10 columns"), `conn.execute` returns the error
through `?`, and the database is untouched.  The conflict branch below keeps
the `ON CONFLICT(query_hash) DO UPDATE` semantics of the statement text for
reference — insert a fresh row, or overwrite `embedding`/`response`/
`provider`/`model`/`last_accessed` and add one to `access_count` — but it is
reachable only when the two lengths agree, which they never do. -/
def storeExec (st : CacheState) (now : Int)
    (query_original query_normalized query_hash response provider model : Str)
    (embeddingBlob : Option EmbBlob) : Except SqlError Int × CacheState :=
  if storeInsertColumns.length =
      (storeInsertParams now query_original query_normalized query_hash
        embeddingBlob response provider model).length then
    let st' :=
      match st.rows.find? (fun r => decide (r.query_hash = query_hash)) with
      | some _ =>
        { st with
          rows := st.rows.map (fun r =>
            if r.query_hash = query_hash then
              { r with embedding := embeddingBlob, response := response,
                       provider := provider, model := model, last_accessed := now,
                       access_count := r.access_count + 1 }
            else r) }
      | none =>
        let newRow : CachedRow :=
          { id := st.nextId, query_original := query_original,
            query_normalized := query_normalized, query_hash := query_hash,
            embedding := embeddingBlob, response := response, provider := provider,
            model := model, created_at := now, last_accessed := now,
            access_count := 1 }
        { st with rows := st.rows ++ [newRow], nextId := st.nextId + 1,
                  lastInsertRowid := st.nextId }
    (.ok st'.lastInsertRowid, st')
  else (.error SqlError.statementMismatch, st)

/-- Model of `CacheStorage::store` (storage.rs lines 117-161): embed the
normalized query (`none` = the embedder panicked, before any SQL ran),
serialize the vector into the `embedding` blob, then run the statement.
With no embedder the blob is NULL.  The result pairs what `store` returns —
always `Err`, since the statement never prepares — with the database state,
which the failed statement leaves unchanged. -/
def store (st : CacheState) (now : Int)
    (query_original query_normalized query_hash response provider model : Str) :
    Option (Except SqlError Int × CacheState) :=
  match storageEmbedder with
  | some e =>
    (e.embed query_normalized).map (fun v =>
      storeExec st now query_original query_normalized query_hash response provider
        model (some (EmbBlob.good v)))
  | none =>
    some (storeExec st now query_original query_normalized query_hash response
      provider model none)

/-- Model of `CacheStorage::update_access` (storage.rs lines 255-263). -/
def update_access (st : CacheState) (now : Int) (query_hash : Str) : CacheState :=
  { st with
    rows := st.rows.map (fun r =>
      if r.query_hash = query_hash then
        { r with last_accessed := now, access_count := r.access_count + 1 }
      else r) }

/-- Model of `CacheStorage::get_by_hash` (storage.rs lines 163-197).  `query_row`
decodes the first row matching the hash through `getByHashMapRow`; on a
decoded row it updates access bookkeeping and the hit counter and returns
the pre-update entry; on no row it bumps the miss counter; a decode error
is returned as-is, with no side effect. -/
def get_by_hash (st : CacheState) (now : Int) (query_hash : Str) :
    Except SqlError (Option CachedQuery) × CacheState :=
  match st.rows.find? (fun r => decide (r.query_hash = query_hash)) with
  | none => (.ok none, { st with miss_count := st.miss_count + 1 })
  | some r =>
    match getByHashMapRow (getByHashSelectRow r) with
    | .error e => (.error e, st)
    | .ok cached =>
      let st := update_access st now cached.query_hash
      let st := { st with hit_count := st.hit_count + 1 }
      (.ok (some cached), st)

/-- The rows `search_similar` scans: `WHERE embedding IS NOT NULL`, in rowid
order. -/
def searchCandidates (st : CacheState) : List CachedRow :=
  st.rows.filter (fun r => decide (r.embedding ≠ none))

/-- Decode a list of scanned rows through `searchMapRow`, aborting at the
first failing row (the `row_result?` step of the loop at storage.rs lines
237-247). -/
def searchDecodedList : List CachedRow → Except SqlError (List (CachedQuery × EmbBlob))
  | [] => .ok []
  | r :: rest => do
    let p ← searchMapRow (searchSelectRow r)
    let ps ← searchDecodedList rest
    pure (p :: ps)

/-- Decoding of every row `search_similar` scans. -/
def searchDecodedRows (st : CacheState) : Except SqlError (List (CachedQuery × EmbBlob)) :=
  searchDecodedList (searchCandidates st)

/-- The body of the scan loop: deserialize each stored blob — skipping rows
whose blob fails — score it against the query embedding, and keep the rows
at or above the threshold, in scan order. -/
def scoreRows (queryEmbedding : List ℚ) (threshold : ℚ)
    (rows : List (CachedQuery × EmbBlob)) : List (CachedQuery × ℚ) :=
  rows.filterMap (fun p =>
    match bincodeDeserializeVecF32 p.2 with
    | some cachedEmbedding =>
      let similarity := cosine_similarity queryEmbedding cachedEmbedding
      if threshold ≤ similarity then some (p.1, similarity) else none
    | none => none)

/-- The comparator of `results.sort_by(|a, b| b.1.partial_cmp(&a.1)...)`:
`a` may precede `b` exactly when `b`'s score is at most `a`'s. -/
def scoreDescLE (a b : CachedQuery × ℚ) : Bool := decide (b.2 ≤ a.2)

/-- Model of `CacheStorage::search_similar` (storage.rs lines 199-253).  `none` is a
panic inside `Embedder::embed`; otherwise the result is the decoded scan
(first decode error aborts the scan), scored, stably sorted by descending
score and truncated to `limit`.  The statement only reads; the state is
returned unchanged. -/
def search_similar (st : CacheState) (query_normalized : Str) (threshold : ℚ)
    (limit : Nat) : Option (Except SqlError (List (CachedQuery × ℚ)) × CacheState) :=
  match storageEmbedder with
  | none => some (.ok [], st)
  | some e =>
    match e.embed query_normalized with
    | none => none
    | some queryEmbedding =>
      match searchDecodedRows st with
      | .error err => some (.error err, st)
      | .ok rows =>
        let results := scoreRows queryEmbedding threshold rows
        let results := results.mergeSort scoreDescLE
        some (.ok (results.take limit), st)

/-- Model of `CacheStorage::stats` (storage.rs lines 299-334). -/
def stats (st : CacheState) : CacheStats :=
  { total_entries := st.rows.length
    total_size_bytes :=
      Int.ofNat ((st.rows.map (fun r => r.response.length + r.query_original.length)).sum)
    hit_count := st.hit_count
    miss_count := st.miss_count
    oldest_entry := (st.rows.map (·.created_at)).min?
    newest_entry := (st.rows.map (·.created_at)).max? }

/-- Model of `CacheStorage::list_all` (storage.rs lines 265-297): rows ordered by
`last_accessed` descending, optionally capped. -/
def list_all (st : CacheState) (limit : Option Nat) : List CachedRow :=
  let sorted := st.rows.mergeSort (fun a b => decide (b.last_accessed ≤ a.last_accessed))
  match limit with
  | some l => sorted.take l
  | none => sorted

/-- Model of `CacheStorage::clear` (storage.rs lines 352-361): delete every row
(`execute` reports the number of rows it changed) and zero the stats row. -/
def clear (st : CacheState) : Nat × CacheState :=
  (st.rows.length, { st with rows := [], hit_count := 0, miss_count := 0 })

/-- Model of `CacheStorage::remove_by_hash` (storage.rs lines 363-369). -/
def remove_by_hash (st : CacheState) (query_hash : Str) : Bool × CacheState :=
  let remaining := st.rows.filter (fun r => decide (r.query_hash ≠ query_hash))
  (decide (remaining.length < st.rows.length), { st with rows := remaining })

/-- Model of `CacheStorage::cleanup_old_entries` (storage.rs lines 375-383): delete
the rows with `created_at < now - days * 86400` and report how many went. -/
def cleanup_old_entries (st : CacheState) (now : Int) (days : Nat) : Nat × CacheState :=
  let cutoff : Int := now - (days : Int) * 86400
  let deleted := (st.rows.filter (fun r => decide (r.created_at < cutoff))).length
  (deleted, { st with rows := st.rows.filter (fun r => decide (¬ r.created_at < cutoff)) })

/-- One `store()` call's arguments, with the `Utc::now()` instant it runs at. -/
structure StoreCall where
  now : Int
  query_original : Str
  query_normalized : Str
  query_hash : Str
  response : Str
  provider : Str
  model : Str

/-- Run one `store()` call against the database.  A panicking call (see
`Embedder.embed`) aborts before its SQL statement executes; a call whose
statement fails to prepare returns `Err` to the caller; either way the
database is unchanged. -/
def applyStore (st : CacheState) (c : StoreCall) : CacheState :=
  match store st c.now c.query_original c.query_normalized c.query_hash
      c.response c.provider c.model with
  | some (_, st') => st'
  | none => st

/-- Run a sequence of `store()` calls against a fresh store. -/
def applyStores (calls : List StoreCall) : CacheState :=
  calls.foldl applyStore initState

/-- The `query_hash` UNIQUE constraint, as a predicate on a state. -/
def uniqueHashes (st : CacheState) : Prop :=
  st.rows.Pairwise (fun a b => a.query_hash ≠ b.query_hash)

/-! ### Helper lemmas -/

theorem sipGo_lt : ∀ (msg : List Nat) (s : SipState) (len : Nat), sipGo s msg len < 2 ^ 64
  | b0 :: b1 :: b2 :: b3 :: b4 :: b5 :: b6 :: b7 :: rest, s, len =>
    sipGo_lt rest _ len
  | [], _, _ => Nat.mod_lt _ (by norm_num)
  | [b0], _, _ => Nat.mod_lt _ (by norm_num)
  | [b0, b1], _, _ => Nat.mod_lt _ (by norm_num)
  | [b0, b1, b2], _, _ => Nat.mod_lt _ (by norm_num)
  | [b0, b1, b2, b3], _, _ => Nat.mod_lt _ (by norm_num)
  | [b0, b1, b2, b3, b4], _, _ => Nat.mod_lt _ (by norm_num)
  | [b0, b1, b2, b3, b4, b5], _, _ => Nat.mod_lt _ (by norm_num)
  | [b0, b1, b2, b3, b4, b5, b6], _, _ => Nat.mod_lt _ (by norm_num)

theorem sipHash13_lt (k0 k1 : Nat) (msg : List Nat) : sipHash13 k0 k1 msg < 2 ^ 64 :=
  sipGo_lt msg _ msg.length

theorem hexDigit_mem (m : Nat) (hm : m < 16) : hexDigit m ∈ hexAlphabet := by
  interval_cases m <;> decide

theorem hexCoreAux_length_le :
    ∀ (fuel n k : Nat), 1 ≤ k → n < 16 ^ k → (hexCoreAux fuel n).length ≤ k := by
  intro fuel
  induction fuel with
  | zero => intro n k hk _; simp [hexCoreAux]
  | succ fuel ih =>
    intro n k hk hn
    by_cases h16 : n < 16
    · simpa [hexCoreAux, h16] using hk
    · have hk2 : 2 ≤ k := by
        rcases Nat.lt_or_ge k 2 with hlt | hge
        · exfalso
          have hk1 : k = 1 := by omega
          rw [hk1, pow_one] at hn
          omega
        · exact hge
      have hpow : 16 ^ k = 16 ^ (k - 1) * 16 := by
        conv_lhs => rw [show k = (k - 1) + 1 by omega]
        rw [pow_succ]
      have hdiv : n / 16 < 16 ^ (k - 1) :=
        (Nat.div_lt_iff_lt_mul (by omega)).mpr (by omega)
      have := ih (n / 16) (k - 1) (by omega) hdiv
      simp only [hexCoreAux, if_neg h16, List.length_append, List.length_cons,
        List.length_nil]
      omega

theorem hexCoreAux_mem_alphabet :
    ∀ (fuel n : Nat) (c : Char), c ∈ hexCoreAux fuel n → c ∈ hexAlphabet := by
  intro fuel
  induction fuel with
  | zero => intro n c hc; simp [hexCoreAux] at hc
  | succ fuel ih =>
    intro n c hc
    by_cases h16 : n < 16
    · simp only [hexCoreAux, if_pos h16, List.mem_singleton] at hc
      exact hc ▸ hexDigit_mem n h16
    · simp only [hexCoreAux, if_neg h16, List.mem_append, List.mem_singleton] at hc
      rcases hc with hc | hc
      · exact ih _ _ hc
      · exact hc ▸ hexDigit_mem _ (Nat.mod_lt _ (by omega))

theorem hexCore_ne_nil (n : Nat) : hexCore n ≠ [] := by
  rw [hexCore]
  show hexCoreAux (n + 1) n ≠ []
  by_cases h16 : n < 16 <;> simp [hexCoreAux, h16]

/-! ### The claims -/

/-- C7, counterexample: `compute_hash` does not produce fixed-width digests.
The digest of `"a"` has 16 hex characters while the digest of `"w"` — whose
64-bit hash value `0x081f933511522d40` has a zero top nibble — has only 15,
because `format!("{:x}", ..)` does not zero-pad. -/
theorem compute_hash_width_not_fixed :
    (computeHash ("a".toList)).length = 16 ∧ (computeHash ("w".toList)).length = 15 ∧
      (16 : Nat) ≠ 15 := by
  refine ⟨by decide, by decide, by decide⟩

/-- C7 (amended): `compute_hash` is deterministic (it is a pure function of
the normalized text), and every digest is a nonempty string of at most 16
lowercase hex characters — the minimal hex form of a 64-bit hash value, with
no zero padding, so the width varies between digests. -/
theorem compute_hash_digest_shape :
    ∀ s : Str, 1 ≤ (computeHash s).length ∧ (computeHash s).length ≤ 16 ∧
      ∀ c ∈ computeHash s, c ∈ hexAlphabet := by
  intro s
  refine ⟨?_, ?_, ?_⟩
  · rw [computeHash]
    have := List.length_pos.mpr (hexCore_ne_nil (defaultHashStr s))
    omega
  · rw [computeHash, hexCore]
    exact hexCoreAux_length_le _ _ 16 (by omega)
      (by
        have h := sipHash13_lt 0 0 (bytesOfChars s ++ [0xff])
        have : (16 : Nat) ^ 16 = 2 ^ 64 := by norm_num
        rw [this]
        exact h)
  · intro c hc
    rw [computeHash, hexCore] at hc
    exact hexCoreAux_mem_alphabet _ _ c hc

/-- C10: the claim is right and the code is wrong.  `Embedder::embed` slices
each word at byte offsets `i .. i + 3` without checking character
boundaries; for the input `"ééé"` (each `é` is two UTF-8 bytes) the very
first trigram slice `&word[0..3]` ends in the middle of the second `é`, so
`embed` panics instead of returning a 256-dimensional vector.  In the model
the panic is the `none` result. -/
theorem embed_panics_on_multibyte_trigram :
    (Embedder.new_simple Embedder.get_default_dimensions).embed ("ééé".toList) = none := by
  with_unfolding_all decide

/-- C8: `clear()` deletes every row of the queries table, resets both global
counters to zero, and returns the number of rows it deleted. -/
theorem clear_deletes_all_rows_and_resets_counters :
    ∀ st : CacheState,
      (clear st).1 = st.rows.length ∧ (clear st).2.rows = [] ∧
      (stats (clear st).2).total_entries = 0 ∧
      (stats (clear st).2).hit_count = 0 ∧ (stats (clear st).2).miss_count = 0 := by
  intro st
  exact ⟨rfl, rfl, rfl, rfl, rfl⟩

/-- C9: `cleanup_old_entries(days)` deletes exactly the rows with
`created_at` strictly older than `now - days * 86400`, returns how many it
deleted, keeps every row at or after the cutoff, and leaves the global
hit/miss counters unchanged. -/
theorem cleanup_old_entries_deletes_exactly_old_rows :
    ∀ (st : CacheState) (now : Int) (days : Nat),
      (cleanup_old_entries st now days).1 =
        (st.rows.filter (fun r => decide (r.created_at < now - (days : Int) * 86400))).length ∧
      (cleanup_old_entries st now days).2.rows =
        st.rows.filter (fun r => decide (now - (days : Int) * 86400 ≤ r.created_at)) ∧
      (∀ r ∈ st.rows, now - (days : Int) * 86400 ≤ r.created_at →
        r ∈ (cleanup_old_entries st now days).2.rows) ∧
      (stats (cleanup_old_entries st now days).2).hit_count = (stats st).hit_count ∧
      (stats (cleanup_old_entries st now days).2).miss_count = (stats st).miss_count := by
  intro st now days
  have hpred : ∀ r ∈ st.rows,
      (decide (¬ r.created_at < now - (days : Int) * 86400)) =
        (decide (now - (days : Int) * 86400 ≤ r.created_at)) := by
    intro r _
    simp [Int.not_lt]
  refine ⟨rfl, List.filter_congr hpred, ?_, rfl, rfl⟩
  intro r hr hle
  rw [cleanup_old_entries]
  simp only [List.mem_filter]
  exact ⟨hr, by simpa [Int.not_lt] using hle⟩

/-- A row with hash `"h1"` and a non-NULL embedding.  Under this build such
a row cannot come from `store()` — its INSERT never prepares (see C1/C2) —
but `CacheStorage::new` opens the persistent `queries.db`, so rows written
earlier remain visible to `get_by_hash`. -/
def c3Row : CachedRow :=
  { id := 1, query_original := "q1".toList, query_normalized := "n1".toList,
    query_hash := "h1".toList, embedding := some (EmbBlob.good []),
    response := "r1".toList, provider := "P".toList, model := "m".toList,
    created_at := 4, last_accessed := 4, access_count := 1 }

/-- The store holding exactly `c3Row`. -/
def c3State : CacheState :=
  { rows := [c3Row], nextId := 2, lastInsertRowid := 0, hit_count := 0,
    miss_count := 0 }

/-- C3: the claim is right and the code is wrong.  The SELECT of
`get_by_hash` lists `embedding` as its 6th column, but the row mapper reads
the columns as if `embedding` were absent: column 5 — the embedding BLOB,
or NULL — is decoded as the `provider` string, which `rusqlite` rejects
with a type error, and columns 6 to 9 shift likewise.  So whatever row the
lookup finds, decoding fails: `get_by_hash` returns `Err` and performs no
bookkeeping, instead of returning the entry and bumping
`last_accessed`/`access_count`/`hit_count`.  Under this build the lookup
can only find rows that predate it in the on-disk database, since
`store()` itself always errs before touching the table.  The miss path
matches the claim: an unknown hash yields `Ok(None)` and bumps the miss
counter.  The theorem proves the row mapper fails on every possible row,
and evaluates both the found-row path and the miss path on a one-row
store. -/
theorem get_by_hash_errors_on_every_found_row :
    (∀ r : CachedRow,
      getByHashMapRow (getByHashSelectRow r) = .error SqlError.typeMismatch) ∧
    get_by_hash c3State 6 "h1".toList = (Except.error SqlError.typeMismatch, c3State) ∧
    get_by_hash c3State 6 "zz".toList =
      (Except.ok none, { c3State with miss_count := 1 }) := by
  refine ⟨?_, by with_unfolding_all decide, by with_unfolding_all decide⟩
  intro r
  obtain ⟨i, qo, qn, qh, emb, resp, prov, mdl, ca, la, ac⟩ := r
  cases emb <;> rfl

theorem storeExec_statement_rejected (st : CacheState) (now : Int)
    (qo qn qh resp prov mdl : Str) (blob : Option EmbBlob) :
    storeExec st now qo qn qh resp prov mdl blob =
      (.error SqlError.statementMismatch, st) := by
  rw [storeExec, if_neg]
  intro h
  simp [storeInsertColumns, storeInsertParams] at h

theorem store_always_errs (st : CacheState) (now : Int)
    (qo qn qh resp prov mdl : Str) :
    store st now qo qn qh resp prov mdl =
      ((Embedder.new_simple Embedder.get_default_dimensions).embed qn).map
        (fun _ => (Except.error SqlError.statementMismatch, st)) := by
  simp only [store, storageEmbedder]
  cases hv : Embedder.embed (Embedder.new_simple Embedder.get_default_dimensions)
      qn with
  | none => rfl
  | some v =>
    rw [Option.map_some', Option.map_some', storeExec_statement_rejected]

/-- C2: the claim is right and the code is wrong.  The claim is about every
`store()` call that succeeds returning the id of the row keyed by the hash;
in the code no `store()` call can succeed: the INSERT names ten columns but
binds nine values, SQLite rejects it at prepare time ("9 values for 10
columns"), the `?` operator propagates the error, and the
`conn.last_insert_rowid()` read at storage.rs line 160 is never reached —
no call ever returns an id at all.  The theorem evaluates `store` at a
concrete input and characterizes every call: whenever the embedder does not
panic, the result is the prepare error, never an `Ok` id. -/
theorem store_never_returns_an_id :
    store initState 1 "q".toList "".toList "h".toList "r".toList "P".toList
        "m".toList = some (Except.error SqlError.statementMismatch, initState) ∧
    ∀ (st : CacheState) (now : Int) (qo qn qh resp prov mdl : Str),
      (store st now qo qn qh resp prov mdl).map Prod.fst =
        ((Embedder.new_simple Embedder.get_default_dimensions).embed qn).map
          (fun _ => Except.error SqlError.statementMismatch) := by
  constructor
  · with_unfolding_all decide
  · intro st now qo qn qh resp prov mdl
    rw [store_always_errs]
    cases hv : Embedder.embed (Embedder.new_simple Embedder.get_default_dimensions)
        qn with
    | none => rfl
    | some v => rfl

/-- The one-row store of the C4 and C5 scenarios: a row whose stored blob
deserializes to the empty vector, last touched at time 5 with one access. -/
def simRow : CachedRow :=
  { id := 1, query_original := "q".toList, query_normalized := "n".toList,
    query_hash := "h".toList, embedding := some (EmbBlob.good []),
    response := "r".toList, provider := "P".toList, model := "m".toList,
    created_at := 0, last_accessed := 5, access_count := 1 }

/-- The `CachedQuery` view of `simRow`. -/
def simQuery : CachedQuery :=
  { id := 1, query_original := "q".toList, query_normalized := "n".toList,
    query_hash := "h".toList, response := "r".toList, provider := "P".toList,
    model := "m".toList, created_at := 0, last_accessed := 5, access_count := 1 }

/-- The store holding exactly `simRow`. -/
def simState : CacheState :=
  { rows := [simRow], nextId := 2, lastInsertRowid := 1, hit_count := 0,
    miss_count := 0 }

/-- C4, counterexample: a similarity search at threshold 0 for the empty
query returns the stored entry (score 0, a non-empty result list), yet the
store is left exactly as it was: the matched row's `last_accessed` is still
5 and its `access_count` still 1, where a `get_by_hash`-style hit would
have set them to the current time and 2.  `search_similar` contains no
access bookkeeping at all. -/
theorem search_similar_hit_leaves_access_count_unchanged :
    search_similar simState "".toList 0 1 = some (Except.ok [(simQuery, 0)], simState) ∧
      simState.rows.map (fun r => (r.last_accessed, r.access_count)) = [(5, 1)] := by
  constructor
  · with_unfolding_all decide
  · with_unfolding_all decide

/-- C4 (amended): `search_similar` never mutates the store — it performs no
access bookkeeping on matched entries; only `get_by_hash` and `store`
update `last_accessed`/`access_count`. -/
theorem search_similar_performs_no_access_bookkeeping :
    ∀ (st : CacheState) (q : Str) (threshold : ℚ) (limit : Nat)
      (res : Except SqlError (List (CachedQuery × ℚ))) (st' : CacheState),
      search_similar st q threshold limit = some (res, st') → st' = st := by
  intro st q threshold limit res st' h
  simp only [search_similar, storageEmbedder] at h
  cases hv : Embedder.embed (Embedder.new_simple Embedder.get_default_dimensions) q with
  | none => rw [hv] at h; exact absurd h (by simp)
  | some qe =>
    rw [hv] at h
    cases hd : searchDecodedRows st with
    | error e =>
      rw [hd] at h
      exact (Prod.mk.inj (Option.some.inj h)).2.symm
    | ok rows =>
      rw [hd] at h
      exact (Prod.mk.inj (Option.some.inj h)).2.symm

theorem applyStore_fixes (st : CacheState) (c : StoreCall) : applyStore st c = st := by
  rw [applyStore, store_always_errs]
  cases hv : Embedder.embed (Embedder.new_simple Embedder.get_default_dimensions)
      c.query_normalized with
  | none => rfl
  | some v => rfl

theorem applyStores_fresh (calls : List StoreCall) : applyStores calls = initState := by
  rw [applyStores]
  have h : ∀ (cs : List StoreCall) (st : CacheState), cs.foldl applyStore st = st := by
    intro cs
    induction cs with
    | nil => intro st; rfl
    | cons c rest ih =>
      intro st
      rw [List.foldl_cons, applyStore_fixes]
      exact ih st
  exact h calls initState

/-- C1: the claim is right and the code is wrong.  The INSERT of `store`
(storage.rs lines 136-139) names ten columns — `access_count` included —
but its VALUES row carries only the nine placeholders `?1 .. ?9` bound by
`params!`, so SQLite rejects the statement at prepare time ("9 values for
10 columns").  Every `store()` call therefore returns `Err` and leaves the
table untouched: nothing is ever inserted, a colliding `store()` never
updates a row in place, and `access_count` is never incremented — contrary
to the claim and to the repo\'s own tests (`test_duplicate_hash_updates`,
`test_list_all`, `test_stats`, ...), which unwrap these calls.
`query_hash` uniqueness across `store()` sequences holds only vacuously:
the table stays empty.  The theorem records the two lengths, evaluates
`store` at a concrete input, and proves that every sequence of `store()`
calls leaves the fresh store empty, hence trivially hash-unique. -/
theorem store_insert_rejected_upsert_never_happens :
    storeInsertColumns.length = 10 ∧
    (storeInsertParams 5 "q1".toList "".toList "h1".toList
        (some (EmbBlob.good (List.replicate 256 0))) "r1".toList "P1".toList
        "m1".toList).length = 9 ∧
    store initState 5 "q1".toList "".toList "h1".toList "r1".toList "P1".toList
        "m1".toList = some (Except.error SqlError.statementMismatch, initState) ∧
    (∀ calls : List StoreCall,
      applyStores calls = initState ∧ uniqueHashes (applyStores calls)) := by
  refine ⟨by decide, by decide, by with_unfolding_all decide, ?_⟩
  intro calls
  refine ⟨applyStores_fresh calls, ?_⟩
  rw [uniqueHashes, applyStores_fresh calls]
  exact List.Pairwise.nil

theorem search_similar_no_bookkeeping_witness :
    (search_similar simState "".toList 0 1 = some (Except.ok [(simQuery, 0)], simState)) ∧
      simState = simState :=
  ⟨by with_unfolding_all decide,
   search_similar_performs_no_access_bookkeeping simState "".toList 0 1
     (Except.ok [(simQuery, 0)]) simState (by with_unfolding_all decide)⟩

/-- Reduction of the `Except` bind on a success value. -/
theorem exceptBindOk {α β ε : Type} (x : α) (f : α → Except ε β) :
    (Except.ok x >>= f) = f x := rfl

/-- Reduction of the `Except` bind on an error value. -/
theorem exceptBindErr {α β ε : Type} (e : ε) (f : α → Except ε β) :
    ((Except.error e : Except ε α) >>= f) = Except.error e := rfl

/-- The `CachedQuery` view of a row, as a successful `searchMapRow` decode
produces it. -/
def queryOfRow (r : CachedRow) : CachedQuery :=
  { id := r.id, query_original := r.query_original,
    query_normalized := r.query_normalized, query_hash := r.query_hash,
    response := r.response, provider := r.provider, model := r.model,
    created_at := r.created_at, last_accessed := r.last_accessed,
    access_count := r.access_count }

/-- The state with the rows whose stored blob fails `bincode` deserialization
removed. -/
def pruneUndeserializable (st : CacheState) : CacheState :=
  { st with rows := st.rows.filter (fun r => decide (r.embedding ≠ some EmbBlob.bad)) }

theorem searchMapRow_ok_eq (r : CachedRow) (b : EmbBlob) (hb : r.embedding = some b)
    (hacc : -2147483648 ≤ r.access_count ∧ r.access_count < 2147483648) :
    searchMapRow (searchSelectRow r) = .ok (queryOfRow r, b) := by
  simp [searchMapRow, searchSelectRow, colGet, hb, SqlValue.asInt, SqlValue.asText,
    SqlValue.asBlob, SqlValue.asI32, hacc.1, hacc.2, exceptBindOk, queryOfRow]

theorem searchMapRow_ok_blob (r : CachedRow) (p : CachedQuery × EmbBlob)
    (h : searchMapRow (searchSelectRow r) = .ok p) : r.embedding = some p.2 := by
  by_cases hacc : -2147483648 ≤ r.access_count ∧ r.access_count < 2147483648
  · cases hb : r.embedding with
    | none =>
      exfalso
      simp [searchMapRow, searchSelectRow, colGet, hb, SqlValue.asInt,
        SqlValue.asText, SqlValue.asBlob, SqlValue.asI32, hacc.1, hacc.2,
        exceptBindOk, exceptBindErr] at h
    | some b =>
      rw [searchMapRow_ok_eq r b hb hacc] at h
      rw [← Except.ok.inj h]
  · exfalso
    cases hb : r.embedding <;>
      simp [searchMapRow, searchSelectRow, colGet, hb, SqlValue.asInt,
        SqlValue.asText, SqlValue.asBlob, SqlValue.asI32, hacc, exceptBindOk,
        exceptBindErr] at h

theorem scoreRows_cons_bad (qe : List ℚ) (threshold : ℚ) (q : CachedQuery)
    (rest : List (CachedQuery × EmbBlob)) :
    scoreRows qe threshold ((q, EmbBlob.bad) :: rest) = scoreRows qe threshold rest := by
  simp [scoreRows, bincodeDeserializeVecF32]

theorem scoreRows_cons_congr (qe : List ℚ) (threshold : ℚ) (p : CachedQuery × EmbBlob)
    (t1 t2 : List (CachedQuery × EmbBlob))
    (h : scoreRows qe threshold t1 = scoreRows qe threshold t2) :
    scoreRows qe threshold (p :: t1) = scoreRows qe threshold (p :: t2) := by
  rw [scoreRows, scoreRows, List.filterMap_cons, List.filterMap_cons]
  rw [scoreRows, scoreRows] at h
  cases hm : (fun p : CachedQuery × EmbBlob =>
      match bincodeDeserializeVecF32 p.2 with
      | some cachedEmbedding =>
        let similarity := cosine_similarity qe cachedEmbedding
        if threshold ≤ similarity then some (p.1, similarity) else none
      | none => none) p with
  | none => rw [h]
  | some q => rw [h]

theorem searchDecodedList_prune (qe : List ℚ) (threshold : ℚ) :
    ∀ (rows : List CachedRow) (out : List (CachedQuery × EmbBlob)),
      searchDecodedList (rows.filter (fun r => decide (r.embedding ≠ none))) = .ok out →
      ∃ out',
        searchDecodedList
          ((rows.filter (fun r => decide (r.embedding ≠ some EmbBlob.bad))).filter
            (fun r => decide (r.embedding ≠ none))) = .ok out' ∧
        scoreRows qe threshold out' = scoreRows qe threshold out := by
  intro rows
  induction rows with
  | nil => intro out h; exact ⟨out, h, rfl⟩
  | cons r rest ih =>
    intro out h
    cases hb : r.embedding with
    | none =>
      rw [List.filter_cons, if_neg (by simp [hb])] at h
      obtain ⟨out', h1, h2⟩ := ih out h
      refine ⟨out', ?_, h2⟩
      rw [List.filter_cons, if_pos (by simp [hb]), List.filter_cons,
        if_neg (by simp [hb])]
      exact h1
    | some b =>
      rw [List.filter_cons] at h
      rw [if_pos (by simp [hb])] at h
      rw [searchDecodedList] at h
      cases hm : searchMapRow (searchSelectRow r) with
      | error e => rw [hm, exceptBindErr] at h; exact absurd h (by simp)
      | ok p =>
        rw [hm, exceptBindOk] at h
        cases hrest : searchDecodedList
            (rest.filter (fun r => decide (r.embedding ≠ none))) with
        | error e => rw [hrest, exceptBindErr] at h; exact absurd h (by simp)
        | ok tail =>
          rw [hrest, exceptBindOk] at h
          have hout : out = p :: tail := (Except.ok.inj h).symm
          subst hout
          have hpb : p.2 = b := by
            have := searchMapRow_ok_blob r p hm
            rw [hb] at this
            exact (Option.some.inj this).symm
          obtain ⟨tail', htail', hscore⟩ := ih tail hrest
          cases hbb : b with
          | good v =>
            refine ⟨p :: tail', ?_, ?_⟩
            · rw [List.filter_cons, if_pos (by simp [hb, hbb]), List.filter_cons,
                if_pos (by simp [hb])]
              rw [searchDecodedList, hm, exceptBindOk, htail', exceptBindOk]
              rfl
            · exact scoreRows_cons_congr qe threshold p tail' tail hscore
          | bad =>
            refine ⟨tail', ?_, ?_⟩
            · rw [List.filter_cons, if_neg (by simp [hb, hbb])]
              exact htail'
            · rw [hscore]
              have hpbad : p = (p.1, EmbBlob.bad) := by
                rw [← hbb, ← hpb]
              rw [hpbad, scoreRows_cons_bad]

theorem scoreRows_mem_threshold (qe : List ℚ) (threshold : ℚ)
    (rows : List (CachedQuery × EmbBlob)) (p : CachedQuery × ℚ)
    (hp : p ∈ scoreRows qe threshold rows) : threshold ≤ p.2 := by
  rw [scoreRows, List.mem_filterMap] at hp
  rcases hp with ⟨a, _, hfa⟩
  cases hd : bincodeDeserializeVecF32 a.2 with
  | none => rw [hd] at hfa; exact absurd hfa (by simp)
  | some v =>
    rw [hd] at hfa
    simp only at hfa
    split at hfa
    · rw [← Option.some.inj hfa]
      assumption
    · exact absurd hfa (by simp)

theorem scoreDescLE_trans (a b c : CachedQuery × ℚ) (hab : scoreDescLE a b = true)
    (hbc : scoreDescLE b c = true) : scoreDescLE a c = true := by
  rw [scoreDescLE, decide_eq_true_eq] at hab hbc ⊢
  exact le_trans hbc hab

theorem scoreDescLE_total (a b : CachedQuery × ℚ) :
    (scoreDescLE a b || scoreDescLE b a) = true := by
  rw [scoreDescLE, scoreDescLE]
  rcases le_total b.2 a.2 with h | h <;> simp [h]

/-- C5: whenever `search_similar` returns a result list, every returned pair
scores at least the threshold, the list is sorted by non-increasing score,
its length is at most the requested limit — and rows whose stored embedding
blob fails to deserialize are merely skipped: removing them from the store
changes nothing about the result. -/
theorem search_similar_threshold_sorted_limit_skips_bad_blobs :
    ∀ (st : CacheState) (q : Str) (threshold : ℚ) (limit : Nat)
      (res : List (CachedQuery × ℚ)) (st' : CacheState),
      search_similar st q threshold limit = some (Except.ok res, st') →
      (∀ p ∈ res, threshold ≤ p.2) ∧
      res.Pairwise (fun a b => b.2 ≤ a.2) ∧
      res.length ≤ limit ∧
      search_similar (pruneUndeserializable st) q threshold limit =
        some (Except.ok res, pruneUndeserializable st') := by
  intro st q threshold limit res st' h
  simp only [search_similar, storageEmbedder] at h ⊢
  cases hv : Embedder.embed (Embedder.new_simple Embedder.get_default_dimensions) q with
  | none => rw [hv] at h; exact absurd h (by simp)
  | some qe =>
    rw [hv] at h
    cases hd : searchDecodedRows st with
    | error e =>
      rw [hd] at h
      exact absurd ((Prod.mk.inj (Option.some.inj h)).1) (by simp)
    | ok rows =>
      rw [hd] at h
      obtain ⟨hres, hst⟩ := Prod.mk.inj (Option.some.inj h)
      have hres' :
          List.take limit ((scoreRows qe threshold rows).mergeSort scoreDescLE) = res :=
        Except.ok.inj hres
      subst hst
      have hmemsort : ∀ p ∈ res, p ∈ scoreRows qe threshold rows := by
        intro p hp
        rw [← hres'] at hp
        have hp2 := List.take_subset limit _ hp
        exact (List.mergeSort_perm (scoreRows qe threshold rows) scoreDescLE).subset hp2
      refine ⟨?_, ?_, ?_, ?_⟩
      · intro p hp
        exact scoreRows_mem_threshold qe threshold rows p (hmemsort p hp)
      · have hsorted := List.sorted_mergeSort scoreDescLE_trans scoreDescLE_total
          (scoreRows qe threshold rows)
        have htake := List.Pairwise.sublist (List.take_sublist limit _) hsorted
        rw [hres'] at htake
        exact htake.imp (fun hab => by
          rw [scoreDescLE, decide_eq_true_eq] at hab
          exact hab)
      · rw [← hres']
        exact List.length_take_le limit _
      · obtain ⟨out', hout', hscore⟩ := searchDecodedList_prune qe threshold st.rows
          rows (by rw [← hd, searchDecodedRows, searchCandidates])
        have hpr : searchDecodedRows (pruneUndeserializable st) = .ok out' := by
          rw [searchDecodedRows, searchCandidates, pruneUndeserializable]
          exact hout'
        rw [hpr]
        show some (Except.ok (List.take limit
            ((scoreRows qe threshold out').mergeSort scoreDescLE)),
          pruneUndeserializable st) = _
        rw [hscore, hres']

theorem search_similar_contract_witness :
    (search_similar simState "".toList 0 1 = some (Except.ok [(simQuery, 0)], simState)) ∧
    ((∀ p ∈ [(simQuery, (0 : ℚ))], (0 : ℚ) ≤ p.2) ∧
      [(simQuery, (0 : ℚ))].Pairwise
        (fun a b : CachedQuery × ℚ => b.2 ≤ a.2) ∧
      [(simQuery, (0 : ℚ))].length ≤ 1 ∧
      search_similar (pruneUndeserializable simState) "".toList 0 1 =
        some (Except.ok [(simQuery, 0)], pruneUndeserializable simState)) :=
  ⟨by with_unfolding_all decide,
   search_similar_threshold_sorted_limit_skips_bad_blobs simState "".toList 0 1
     [(simQuery, 0)] simState (by with_unfolding_all decide)⟩

theorem rustIsWhitespace_false_of_range (c : Char) (h1 : 33 ≤ c.toNat)
    (h2 : c.toNat ≤ 132) : rustIsWhitespace c = false := by
  rw [rustIsWhitespace]
  simp only [Bool.or_eq_false_iff, Bool.and_eq_false_iff, decide_eq_false_iff_not,
    beq_eq_false_iff_ne, ne_eq]
  omega

theorem rustToLowerChar_whitespace (c : Char) :
    rustIsWhitespace (rustToLowerChar c) = rustIsWhitespace c := by
  rw [rustToLowerChar]
  split
  · rename_i h
    have hv : (Char.ofNat (c.toNat + 32)).toNat = c.toNat + 32 := by
      rw [Char.ofNat, dif_pos (Or.inl (by omega))]
      rfl
    rw [rustIsWhitespace_false_of_range _ (by omega) (by omega),
      rustIsWhitespace_false_of_range c (by omega) (by omega)]
  · rfl

theorem splitWSAux_lower (s : Str) :
    ∀ acc : Str, splitWSAux (rustToLower s) (rustToLower acc) =
      (splitWSAux s acc).map rustToLower := by
  induction s with
  | nil =>
    intro acc
    cases acc with
    | nil => rfl
    | cons a as =>
      show splitWSAux [] (rustToLowerChar a :: rustToLower as) = _
      rw [splitWSAux, splitWSAux]
      simp [rustToLower, List.map_reverse]
  | cons c cs ih =>
    intro acc
    show splitWSAux (rustToLowerChar c :: rustToLower cs) (rustToLower acc) = _
    rw [splitWSAux, splitWSAux, rustToLowerChar_whitespace]
    by_cases hw : rustIsWhitespace c
    · rw [if_pos hw, if_pos hw]
      cases acc with
      | nil =>
        show splitWSAux (rustToLower cs) (rustToLower []) = _
        rw [ih []]
        rfl
      | cons a as =>
        show (if (rustToLowerChar a :: rustToLower as).isEmpty = true then
            splitWSAux (rustToLower cs) [] else
            (rustToLowerChar a :: rustToLower as).reverse ::
              splitWSAux (rustToLower cs) []) = _
        rw [List.isEmpty_cons, List.isEmpty_cons]
        simp only [Bool.false_eq_true, if_false, List.map_cons]
        refine congrArg₂ List.cons ?_ ?_
        · show (rustToLower (a :: as)).reverse = rustToLower ((a :: as).reverse)
          rw [rustToLower, rustToLower, List.map_reverse]
        · show splitWSAux (rustToLower cs) (rustToLower []) = _
          rw [ih []]
    · rw [if_neg hw, if_neg hw]
      show splitWSAux (rustToLower cs) (rustToLower (c :: acc)) = _
      rw [ih (c :: acc)]

theorem splitWS_lower (s : Str) :
    splitWS (rustToLower s) = (splitWS s).map rustToLower := splitWSAux_lower s []
theorem splitWS_dropWhile (s : Str) :
    splitWS (s.dropWhile rustIsWhitespace) = splitWS s := by
  induction s with
  | nil => rfl
  | cons c cs ih =>
    by_cases hw : rustIsWhitespace c
    · rw [List.dropWhile_cons, if_pos hw, ih]
      show _ = splitWSAux (c :: cs) []
      rw [splitWSAux, if_pos hw]
      rfl
    · rw [List.dropWhile_cons, if_neg hw]

theorem splitWSAux_all_ws :
    ∀ (b : Str), (∀ c ∈ b, rustIsWhitespace c = true) →
      ∀ acc : Str, splitWSAux b acc = if acc.isEmpty then [] else [acc.reverse] := by
  intro b
  induction b with
  | nil => intro _ acc; rfl
  | cons c cs ih =>
    intro hb acc
    have hc := hb c (List.mem_cons_self c cs)
    have hcs : ∀ x ∈ cs, rustIsWhitespace x = true := fun x hx =>
      hb x (List.mem_cons_of_mem c hx)
    rw [splitWSAux, if_pos hc]
    by_cases hacc : acc.isEmpty
    · rw [if_pos hacc, if_pos hacc, ih hcs []]
      rfl
    · rw [if_neg hacc, if_neg hacc, ih hcs []]
      rfl

theorem splitWSAux_append_ws :
    ∀ (a b : Str), (∀ c ∈ b, rustIsWhitespace c = true) →
      ∀ acc : Str, splitWSAux (a ++ b) acc = splitWSAux a acc := by
  intro a b hb
  induction a with
  | nil =>
    intro acc
    rw [List.nil_append, splitWSAux_all_ws b hb acc]
    rfl
  | cons c cs ih =>
    intro acc
    rw [List.cons_append, splitWSAux, splitWSAux]
    by_cases hw : rustIsWhitespace c
    · rw [if_pos hw, if_pos hw]
      by_cases hacc : acc.isEmpty
      · rw [if_pos hacc, if_pos hacc, ih []]
      · rw [if_neg hacc, if_neg hacc, ih []]
    · rw [if_neg hw, if_neg hw, ih (c :: acc)]

theorem splitWS_trim (s : Str) : splitWS (trimChars s) = splitWS s := by
  rw [trimChars]
  have hsplit : s.dropWhile rustIsWhitespace =
      ((s.dropWhile rustIsWhitespace).reverse.dropWhile rustIsWhitespace).reverse ++
        ((s.dropWhile rustIsWhitespace).reverse.takeWhile rustIsWhitespace).reverse := by
    conv_lhs => rw [← List.reverse_reverse (s.dropWhile rustIsWhitespace),
      ← List.takeWhile_append_dropWhile (p := rustIsWhitespace)
        (l := (s.dropWhile rustIsWhitespace).reverse)]
    rw [List.reverse_append]
  have hws : ∀ c ∈ ((s.dropWhile rustIsWhitespace).reverse.takeWhile
      rustIsWhitespace).reverse, rustIsWhitespace c = true := by
    intro c hc
    rw [List.mem_reverse] at hc
    exact List.mem_takeWhile_imp hc
  have h1 : splitWS (s.dropWhile rustIsWhitespace) =
      splitWS (((s.dropWhile rustIsWhitespace).reverse.dropWhile
        rustIsWhitespace).reverse) := by
    conv_lhs => rw [hsplit]
    exact splitWSAux_append_ws _ _ hws []
  rw [← h1, splitWS_dropWhile]
def tokensLower (s : Str) : List Str := splitWS (rustToLower s)

def coveredPunct (abbrevs : List (Str × Str)) (w1 w2 : Str) : Prop :=
  w1 = w2 ∨ (stripTrailingNonAlnum w1 = stripTrailingNonAlnum w2 ∧
    (lookupAssoc abbrevs (stripTrailingNonAlnum w1)).isSome = true)

instance (abbrevs : List (Str × Str)) (w1 w2 : Str) :
    Decidable (coveredPunct abbrevs w1 w2) :=
  inferInstanceAs (Decidable (w1 = w2 ∨
    (stripTrailingNonAlnum w1 = stripTrailingNonAlnum w2 ∧
      (lookupAssoc abbrevs (stripTrailingNonAlnum w1)).isSome = true)))

theorem tokensLower_trim (s : Str) :
    splitWS (rustToLower (trimChars s)) = tokensLower s := by
  rw [splitWS_lower, splitWS_trim, tokensLower, splitWS_lower]

theorem expandToken_congr (abbrevs : List (Str × Str)) (w1 w2 : Str)
    (h : coveredPunct abbrevs w1 w2) :
    expandToken abbrevs w1 = expandToken abbrevs w2 := by
  rcases h with rfl | ⟨hs, hsome⟩
  · rfl
  · rw [expandToken, expandToken, hs]
    rw [hs] at hsome
    cases hl : lookupAssoc abbrevs (stripTrailingNonAlnum w2) with
    | none => rw [hl] at hsome; exact absurd hsome (by simp)
    | some e => rfl

theorem map_expandToken_eq (abbrevs : List (Str × Str)) (l1 l2 : List Str)
    (h : List.Forall₂ (coveredPunct abbrevs) l1 l2) :
    l1.map (expandToken abbrevs) = l2.map (expandToken abbrevs) := by
  induction h with
  | nil => rfl
  | cons hR _ ih =>
    rw [List.map_cons, List.map_cons, expandToken_congr _ _ _ hR, ih]

/-- C6: inputs that differ only in letter case, in leading/trailing
whitespace, in internal whitespace runs, or in trailing-punctuation patterns
the abbreviation lexicon covers (tokens whose trailing-non-alphanumeric-
stripped forms agree and hit the lexicon) normalize — under the default
configuration, for every lexicon — to the same string, and therefore hash to
the same digest. -/
theorem normalize_case_ws_punct (abbrevs : List (Str × Str)) (stop : List Str)
    (s t : Str)
    (hdiff : rustToLower s = rustToLower t ∨ splitWS s = splitWS t ∨
      List.Forall₂ (coveredPunct abbrevs) (tokensLower s) (tokensLower t)) :
    QueryNormalizer.normalize ⟨NormalizationConfig.default, abbrevs, stop⟩ s =
      QueryNormalizer.normalize ⟨NormalizationConfig.default, abbrevs, stop⟩ t ∧
    computeHash
        (QueryNormalizer.normalize ⟨NormalizationConfig.default, abbrevs, stop⟩ s) =
      computeHash
        (QueryNormalizer.normalize ⟨NormalizationConfig.default, abbrevs, stop⟩ t) := by
  have hforall : List.Forall₂ (coveredPunct abbrevs) (tokensLower s) (tokensLower t) := by
    rcases hdiff with hcase | hws | hf
    · rw [tokensLower, tokensLower, hcase]
      exact List.forall₂_same.mpr (fun x _ => Or.inl rfl)
    · have heq : tokensLower s = tokensLower t := by
        rw [tokensLower, tokensLower, splitWS_lower, splitWS_lower, hws]
      rw [heq]
      exact List.forall₂_same.mpr (fun x _ => Or.inl rfl)
    · exact hf
  have hexp : expandAbbreviations abbrevs (rustToLower (trimChars s)) =
      expandAbbreviations abbrevs (rustToLower (trimChars t)) := by
    rw [expandAbbreviations, expandAbbreviations, tokensLower_trim, tokensLower_trim]
    exact congrArg joinSpace (map_expandToken_eq abbrevs _ _ hforall)
  have hnorm : QueryNormalizer.normalize ⟨NormalizationConfig.default, abbrevs, stop⟩ s =
      QueryNormalizer.normalize ⟨NormalizationConfig.default, abbrevs, stop⟩ t := by
    show joinSpace (splitWS (removeStopwords stop (expandAbbreviations abbrevs
        (rustToLower (trimChars s))))) =
      joinSpace (splitWS (removeStopwords stop (expandAbbreviations abbrevs
        (rustToLower (trimChars t)))))
    rw [hexp]
  exact ⟨hnorm, congrArg computeHash hnorm⟩
theorem normalize_case_ws_punct_witness :
    (rustToLower "Nmap!! scan".toList = rustToLower "  nmap   scan ".toList ∨
      splitWS "Nmap!! scan".toList = splitWS "  nmap   scan ".toList ∨
      List.Forall₂ (coveredPunct [("nmap".toList, "network mapper nmap".toList)])
        (tokensLower "Nmap!! scan".toList) (tokensLower "  nmap   scan ".toList)) ∧
    (QueryNormalizer.normalize
        ⟨NormalizationConfig.default, [("nmap".toList, "network mapper nmap".toList)],
          ["to".toList]⟩ "Nmap!! scan".toList =
      QueryNormalizer.normalize
        ⟨NormalizationConfig.default, [("nmap".toList, "network mapper nmap".toList)],
          ["to".toList]⟩ "  nmap   scan ".toList ∧
    computeHash (QueryNormalizer.normalize
        ⟨NormalizationConfig.default, [("nmap".toList, "network mapper nmap".toList)],
          ["to".toList]⟩ "Nmap!! scan".toList) =
      computeHash (QueryNormalizer.normalize
        ⟨NormalizationConfig.default, [("nmap".toList, "network mapper nmap".toList)],
          ["to".toList]⟩ "  nmap   scan ".toList)) :=
  ⟨Or.inr (Or.inr (by decide)),
   normalize_case_ws_punct [("nmap".toList, "network mapper nmap".toList)]
     ["to".toList] "Nmap!! scan".toList "  nmap   scan ".toList
     (Or.inr (Or.inr (by decide)))⟩

end Cyx
